import Mathlib

/-!
Shallow embedding of `src/main.py` (a Dropbox "memo style" cleanup script)
and proofs about the claims of its specification.

Strings are modelled as `List Char`.  Lowercasing (Python `str.lower` and
`re.IGNORECASE`) is modelled by ASCII lowercasing with `Char.toLower`; the
inputs of interest are ASCII.  Python's `\s` character class is modelled by
the six ASCII whitespace characters; rare Unicode whitespace codepoints are
not modelled.
-/

set_option maxRecDepth 100000

namespace SDAMemoRemove

/-- Lowercase a string, character by character (ASCII model of `str.lower`). -/
def lowerStr (l : List Char) : List Char := l.map Char.toLower

/-- The character class `[\s\-_]` of the source's regexes (ASCII model). -/
def isSepChar (c : Char) : Bool :=
  c = ' ' || c = '\t' || c = '\n' || c = '\r' || c = '\x0b' || c = '\x0c' ||
  c = '-' || c = '_'

/-- Consume the run matched by `[\s\-_]*`.  Since the following literal in
every pattern starts with 's', which is not in the class, the regex match is
forced to consume exactly the maximal run, so greedy consumption is exact. -/
def dropSeps (l : List Char) : List Char := l.dropWhile isSepChar

/-- Match of `memo[\s\-_]*style\.pdf$` starting at the head of `l`
(on an already lowercased string).  Python's `$` matches at the end of the
string or just before a final newline, hence the second disjunct. -/
def p1At (l : List Char) : Bool :=
  if "memo".toList.isPrefixOf l then
    let r := dropSeps (l.drop 4)
    r == "style.pdf".toList || r == "style.pdf\n".toList
  else false

/-- Match of `memostyle\.pdf$` starting at the head of `l`. -/
def p2At (l : List Char) : Bool :=
  l == "memostyle.pdf".toList || l == "memostyle.pdf\n".toList

/-- Match of `.*\.pdf$` on the remainder after `memo[\s\-_]*style`:
some run of non-newline characters, then `.pdf`, then end of string
(possibly before a final newline). -/
def p3tail : List Char → Bool
  | [] => false
  | c :: cs =>
    (c :: cs == ".pdf".toList) || (c :: cs == ".pdf\n".toList) ||
    (!(c == '\n') && p3tail cs)

/-- Match of `memo[\s\-_]*style.*\.pdf$` starting at the head of `l`. -/
def p3At (l : List Char) : Bool :=
  if "memo".toList.isPrefixOf l then
    let r := dropSeps (l.drop 4)
    if "style".toList.isPrefixOf r then p3tail (r.drop 5) else false
  else false

/-- Model of `re.search`: try the match at every start position (including the
position at the very end of the string). -/
def searchB (p : List Char → Bool) : List Char → Bool
  | [] => p []
  | c :: cs => p (c :: cs) || searchB p cs

/-- The function `is_target_file` from `src/main.py` (lines 88-95): search the filename
with the three compiled `IGNORECASE` patterns and take the disjunction.
`IGNORECASE` is modelled by lowercasing the input and matching the
lowercase pattern literals (the class `[\s\-_]` contains no letters). -/
def is_target_file (filename : List Char) : Bool :=
  let l := lowerStr filename
  searchB p1At l || searchB p2At l || searchB p3At l

/-! Spec-side matcher for claim C3, following the spec's words: the name,
case-insensitively, *ends with* one of three surface forms: the literal
`memostyle.pdf`; `memo` followed by a run of separator characters then
`style.pdf`; or that same prefix followed by arbitrary characters before
`.pdf`.  "Ends with" is formalised by trying every start position and
requiring the form to reach exactly the end of the string. -/

/-- Spec form 1: suffix `memo` ++ separators ++ `style.pdf`, to the end. -/
def specForm1At (l : List Char) : Bool :=
  if "memo".toList.isPrefixOf l then
    dropSeps (l.drop 4) == "style.pdf".toList
  else false

/-- Spec form 2: suffix exactly `memostyle.pdf`, to the end. -/
def specForm2At (l : List Char) : Bool :=
  l == "memostyle.pdf".toList

/-- Spec form 3 remainder: arbitrary characters, then `.pdf` at the end. -/
def specTail : List Char → Bool
  | [] => false
  | c :: cs => (c :: cs == ".pdf".toList) || specTail cs

/-- Spec form 3: suffix `memo` ++ separators ++ `style` ++ arbitrary
characters ++ `.pdf`, to the end. -/
def specForm3At (l : List Char) : Bool :=
  if "memo".toList.isPrefixOf l then
    let r := dropSeps (l.drop 4)
    if "style".toList.isPrefixOf r then specTail (r.drop 5) else false
  else false

/-- The matcher described by the spec's words (for claim C3): the name,
case-insensitively, ends with one of the three surface forms. -/
def spec_is_target (filename : List Char) : Bool :=
  let l := lowerStr filename
  searchB specForm1At l || searchB specForm2At l || searchB specForm3At l

/-!  Configuration constants (lines 17-33 of `src/main.py`). -/

/-- The constant `TARGET_FOLDER` (line 17). -/
def TARGET_FOLDER : List Char := "/$ JLR DATA MIGRATION/David".toList

/-- The constant `EXCLUDE_FOLDERS` (lines 18-22).  The source uses a Python `set`; it is
consulted only through `any(...)`, so the iteration order is irrelevant and
a list is a faithful model. -/
def EXCLUDE_FOLDERS : List (List Char) :=
  ["/$ JLR DATA MIGRATION/Archive".toList,
   "/$ JLR DATA MIGRATION/David/Archive".toList,
   "/Archive".toList]

/-- The constant `MAX_RETRIES` (line 27). -/
def MAX_RETRIES : Nat := 5

/-- The constant `INITIAL_TIMEOUT` (line 28), in seconds.  The floating-point sleep
arithmetic of the source (`60 * 1.5^k`) is exact in binary floating point
for every reachable `k`, so rationals model it exactly. -/
def INITIAL_TIMEOUT : ℚ := 60

/-- The constant `BACKOFF_FACTOR` (line 29). -/
def BACKOFF_FACTOR : ℚ := 3 / 2

/-- The constant `BATCH_SIZE` (line 33). -/
def BATCH_SIZE : Nat := 100

/-!  Error taxonomy.  The exception classes that the source distinguishes:
`requests.exceptions.ReadTimeout` and `requests.exceptions.ConnectionError`
(both of which are `requests.exceptions.RequestException`s),
`dropbox.exceptions.ApiError`, `dropbox.exceptions.AuthError`, and anything
else. -/

/-- Exception classes distinguished by the source's `except` clauses. -/
inductive Err
  | readTimeout
  | connectionError
  | apiError
  | authError
  | otherError
deriving DecidableEq

deriving instance DecidableEq for Except

/-- The class caught by `robust_api_call` (line 56-57):
`(requests.exceptions.ReadTimeout, requests.exceptions.ConnectionError)`. -/
def isTransient (e : Err) : Bool :=
  e = Err.readTimeout || e = Err.connectionError

/-- The class caught by the scan loop's inner handler (line 152):
`(ApiError, requests.exceptions.RequestException)`; read-timeouts and
connection errors are `RequestException`s. -/
def isOuterCaught (e : Err) : Bool :=
  e = Err.apiError || e = Err.readTimeout || e = Err.connectionError

/-!  The retry wrapper `robust_api_call` (lines 48-67).  The wrapped operation is modelled as
an oracle `op : Nat → Except Err α` giving the outcome of the i-th
invocation.  The model returns the call's result (`raise last_error` after
the loop becomes `.error`) together with the list of back-off waits passed
to `time.sleep`, in order.  The `raise last_error` statement is reachable
only after at least one transient failure, so `last_error` is never `None`
there; the model keeps the last transient error in the recursion. -/

/-- One step of `robust_api_call`'s `for attempt in range(MAX_RETRIES + 1)`
loop: `remaining` counts the attempts still allowed after this one
(`MAX_RETRIES - attempt`), `current` is `current_timeout`. -/
def racGo (op : Nat → Except Err α) : Nat → Nat → ℚ → Except Err α × List ℚ
  | attempt, remaining, current =>
    match op attempt with
    | .ok a => (.ok a, [])
    | .error e =>
      if isTransient e then
        match remaining with
        | 0 => (.error e, [])
        | r + 1 =>
          let w := current * BACKOFF_FACTOR
          let res := racGo op (attempt + 1) r w
          (res.1, w :: res.2)
      else (.error e, [])

/-- The function `robust_api_call` (lines 48-67). -/
def robust_api_call (op : Nat → Except Err α) : Except Err α × List ℚ :=
  racGo op 0 MAX_RETRIES INITIAL_TIMEOUT

/-!  Scanning (`scan_target_folder`, lines 100-169).  A listing entry is
either a `FileMetadata` or a `FolderMetadata`; both carry `name` and
`path_lower` (the path as returned by Dropbox, already lowercased). -/

/-- A Dropbox listing entry: `FileMetadata` or `FolderMetadata`. -/
inductive Entry
  | file (name : List Char) (path_lower : List Char)
  | folder (name : List Char) (path_lower : List Char)
deriving DecidableEq

/-- Line 136-137: the entry is a `FolderMetadata` and
`entry.path_lower.startswith(excl.lower())` for some excluded prefix. -/
def isExcludedFolderEntry : Entry → Bool
  | .folder _ p => EXCLUDE_FOLDERS.any (fun ex => (lowerStr ex).isPrefixOf p)
  | .file _ _ => false

/-- The per-entry body of the scan loop (lines 127-142), restricted to its
effect on `results['target_files']`: an excluded folder entry is skipped
(`continue`); a file entry whose name matches `is_target_file` appends its
`path_lower`; every other entry leaves the accumulator unchanged. -/
def processEntry (acc : List (List Char)) (e : Entry) : List (List Char) :=
  if isExcludedFolderEntry e then acc
  else
    match e with
    | .file n p => if is_target_file n then acc ++ [p] else acc
    | .folder _ _ => acc

/-- Processing one page of entries (the `for entry in response.entries`
loop), as it acts on the accumulated target list. -/
def processEntries (acc : List (List Char)) (entries : List Entry) : List (List Char) :=
  entries.foldl processEntry acc

/-- The claim-side notion for C1: the path lies under some configured
excluded prefix, the prefix compared case-insensitively against the
lowercase-normalised path. -/
def underExcluded (p : List Char) : Bool :=
  EXCLUDE_FOLDERS.any (fun ex => (lowerStr ex).isPrefixOf p)

/-- One page of a recursive listing: the entries, the continuation cursor
(abstracted to a number naming the next page) and `has_more`. -/
structure Page where
  entries : List Entry
  cursor : Nat
  hasMore : Bool
deriving DecidableEq

/-- A `results['failed_folders']` marker: `cursor or TARGET_FOLDER`
(line 163) records the cursor when one exists and the root otherwise. -/
inductive Marker
  | root
  | cursor (c : Nat)
deriving DecidableEq

/-- What `scan_target_folder` returns: `results['target_files']` and
`results['failed_folders']` (`results['other_files']` is never written). -/
structure ScanResult where
  target_files : List (List Char)
  failed_folders : List Marker
deriving DecidableEq

/-- The `except Exception` handler at line 161-165: record a failure marker
for the unprocessed remainder, re-raise when no target file was found,
otherwise fall through to the `return results` (partial success). -/
def scanOuterHandler (e : Err) (cursor : Option Nat) (targets : List (List Char)) :
    Except Err ScanResult :=
  let marker := match cursor with
    | none => Marker.root
    | some c => Marker.cursor c
  if targets.isEmpty then .error e else .ok ⟨targets, [marker]⟩

/-- The `while True` scan loop (lines 109-159).  `fetch cursor retry` is
the outcome of the (robust_api_call-wrapped) page fetch for the given
cursor at the given value of `retry_count`.  The loop retries a failing
fetch with the same cursor while `retry_count < 3` (the local
`MAX_RETRIES = 3` at line 106 shadows the global constant) when the error
is an `ApiError` or a `RequestException`; any error which escapes reaches
the `except Exception` handler.  `fuel` bounds the number of loop
iterations (the source's loop terminates only when the listing runs out of
pages); `none` means the fuel was exhausted. -/
def scanLoop (fetch : Option Nat → Nat → Except Err Page) :
    Nat → Option Nat → Nat → List (List Char) → Option (Except Err ScanResult)
  | 0, _, _, _ => none
  | fuel + 1, cursor, retry, targets =>
    match fetch cursor retry with
    | .ok page =>
      let targets := processEntries targets page.entries
      if page.hasMore then scanLoop fetch fuel (some page.cursor) 0 targets
      else some (.ok ⟨targets, []⟩)
    | .error e =>
      if isOuterCaught e then
        if retry < 3 then scanLoop fetch fuel cursor (retry + 1) targets
        else some (scanOuterHandler e cursor targets)
      else some (scanOuterHandler e cursor targets)

/-- The function `scan_target_folder` (lines 100-169).  Each page fetch goes through
`robust_api_call` (lines 113-124); `inv cursor retry i` is the outcome of
the i-th raw API invocation inside the wrapped fetch for that cursor and
outer retry count. -/
def scan_target_folder (inv : Option Nat → Nat → Nat → Except Err Page) (fuel : Nat) :
    Option (Except Err ScanResult) :=
  scanLoop (fun cursor retry => (robust_api_call (inv cursor retry)).1) fuel none 0 []

/-- A concrete remote behaviour: the first page holds one matching file and
announces more pages; every fetch of the continuation raises `ApiError`. -/
def invBestEffort : Option Nat → Nat → Nat → Except Err Page := fun c _ _ =>
  match c with
  | none => .ok ⟨[Entry.file "memostyle.pdf".toList
      "/$ jlr data migration/david/memostyle.pdf".toList], 7, true⟩
  | some _ => .error Err.apiError

/-- A concrete remote behaviour: the first page is empty and announces more
pages; every fetch of the continuation raises `ApiError`. -/
def invFatal : Option Nat → Nat → Nat → Except Err Page := fun c _ _ =>
  match c with
  | none => .ok ⟨[], 7, true⟩
  | some _ => .error Err.apiError

/-!  Batch deletion (`turbo_delete_files`, lines 174-198). -/

/-- The partition `batches = [file_paths[i:i + BATCH_SIZE] for i in range(0, len(file_paths),
BATCH_SIZE)]` (lines 189-190), with `BATCH_SIZE = 100`.  Structural
recursion on a fuel equal to the input length (each step strips at least
one element, so the fuel always suffices). -/
def chunksAux : Nat → List α → List (List α)
  | 0, _ => []
  | _, [] => []
  | fuel + 1, x :: xs => (x :: xs).take 100 :: chunksAux fuel ((x :: xs).drop 100)

/-- The batch partition of a path list. -/
def chunks (l : List α) : List (List α) := chunksAux l.length l

/-- The function `delete_batch` (lines 176-185), as a function of whether the mode is a
dry run and of the outcome of the `files_delete_batch` call (`none` when
the call succeeds / is not issued, `some e` when it raises `e`).
`.ok true` models the `return None` path (the batch was processed and the
"Processed batch" line logged), `.ok false` the `return batch` path (an
`ApiError` was caught and the batch reported as failed), and `.error e` an
uncaught exception propagating out of `delete_batch`.  Under a dry run the
remote call is not issued, so no exception can arise from it. -/
def delete_batch (dryRun : Bool) (outcome : Option Err) : Except Err Bool :=
  if dryRun then .ok true
  else
    match outcome with
    | none => .ok true
    | some e => if e = Err.apiError then .ok false else .error e

/-- Observable behaviour of one `turbo_delete_files` run.  `callIdx` lists
the batch index of every `files_delete_batch` invocation actually issued,
first the concurrent pass in batch order, then the serial retries;
`logs` counts the "Processed batch" log lines; `abandoned` lists the batch
indices that failed the serial retry as well (logged, then dropped);
`succeeded` lists the batch indices whose `delete_batch` call returned
success, pass 1 first. -/
structure TDTrace where
  batches : List (List (List Char))
  callIdx : List Nat
  logs : Nat
  abandoned : List Nat
  succeeded : List Nat
deriving DecidableEq

/-- The serial retry loop over the failed batches (lines 196-198): each
failed batch is passed to `delete_batch` once more; the return value is
discarded, so a second failure is only logged (abandoned).  Returns the
retry pass's `files_delete_batch` calls, its "Processed batch" log count,
the abandoned indices and the successful indices, or the first uncaught
exception. -/
def retryLoop (dryRun : Bool) (oracle2 : Nat → Option Err) :
    List Nat → Except Err (List Nat × Nat × List Nat × List Nat)
  | [] => .ok ([], 0, [], [])
  | i :: is =>
    match delete_batch dryRun (oracle2 i) with
    | .ok true =>
      match retryLoop dryRun oracle2 is with
      | .ok (cs, lg, ab, sc) =>
        .ok ((if dryRun then cs else i :: cs), lg + 1, ab, i :: sc)
      | .error e => .error e
    | .ok false =>
      match retryLoop dryRun oracle2 is with
      | .ok (cs, lg, ab, sc) =>
        .ok ((if dryRun then cs else i :: cs), lg, i :: ab, sc)
      | .error e => .error e
    | .error e => .error e

/-- Selector for the first uncaught exception among the pass-1 results. -/
def tdFirstErr (p : Nat × Except Err Bool) : Option Err :=
  match p.2 with
  | .error e => some e
  | _ => none

/-- Selector for the pass-1 successes. -/
def tdOkTrue (p : Nat × Except Err Bool) : Option Nat :=
  match p.2 with
  | .ok true => some p.1
  | _ => none

/-- Selector for the pass-1 failed batches (`filter(None, ...)` keeps the
batches returned by `delete_batch`). -/
def tdOkFalse (p : Nat × Except Err Bool) : Option Nat :=
  match p.2 with
  | .ok false => some p.1
  | _ => none

/-- The function `turbo_delete_files` (lines 174-198).  `oracle p i` is the outcome of
the `files_delete_batch` call for batch `i` in pass `p` (0 = the
concurrent pass, 1 = the serial retry pass), were that call issued.
`executor.map` submits every batch and yields the per-batch results in
batch order, so the first uncaught exception in batch order propagates
when the results are collected (line 193); the serial retry loop then
processes the failed batches in order.  An uncaught exception aborts the
whole call (`.error`); the calls issued before it are then unobservable in
this model. -/
def turbo_delete_files (dryRun : Bool) (oracle : Nat → Nat → Option Err)
    (file_paths : List (List Char)) : Except Err TDTrace :=
  let batches := chunks file_paths
  let n := batches.length
  let outcomes := (List.range n).map (fun i => (i, delete_batch dryRun (oracle 0 i)))
  match outcomes.findSome? tdFirstErr with
  | some e => .error e
  | none =>
    let p1calls : List Nat := if dryRun then [] else List.range n
    let p1succ := outcomes.filterMap tdOkTrue
    let failed := outcomes.filterMap tdOkFalse
    match retryLoop dryRun (oracle 1) failed with
    | .error e => .error e
    | .ok (cs, lg, ab, sc) =>
      .ok ⟨batches, p1calls ++ cs, p1succ.length + lg, ab, p1succ ++ sc⟩

/-!  Folder cleanup (`clean_empty_folders`, lines 203-244). -/

/-- Model of `os.path.dirname` for POSIX paths: take everything up to and including
the final `/`, then strip trailing slashes unless the head consists of
slashes only; a path with no `/` has dirname `""`. -/
def dirname (p : List Char) : List Char :=
  let k := (p.reverse.takeWhile (fun c => !(c == '/'))).length
  let head := p.take (p.length - k)
  if head.isEmpty || head.all (fun c => c == '/') then head
  else (head.reverse.dropWhile (fun c => c == '/')).reverse

/-- The `while len(folder) > len(TARGET_FOLDER)` ancestor walk (lines
218-221), collecting the visited folders in order.  The fuel (one unit per
iteration, initialised to the path length) only cuts pathological inputs
on which the source's loop would not terminate (a path of more than
`len(TARGET_FOLDER)` slashes, whose dirname is itself); on every other
input each step strictly shortens the path, so the fuel suffices. -/
def folderWalk : Nat → List Char → List (List Char)
  | 0, _ => []
  | fuel + 1, folder =>
    if TARGET_FOLDER.length < folder.length then
      folder :: folderWalk fuel (dirname folder)
    else []

/-- The candidate ancestors contributed by one target file path
(`folder = os.path.dirname(file_path)`, then the walk). -/
def candidateFolders (file_path : List Char) : List (List Char) :=
  folderWalk file_path.length (dirname file_path)

/-- The set `folders_to_check` (lines 215-221): a Python `set`, modelled as the
deduplicated list of candidates in first-encounter order.  (The set's
iteration order is unspecified in Python; only the multiset matters to the
claims, since the subsequent sort key is the path depth.) -/
def folders_to_check (target_files : List (List Char)) : List (List Char) :=
  (target_files.flatMap candidateFolders).foldl
    (fun acc x => if x ∈ acc then acc else acc ++ [x]) []

/-- Sort key of line 224: `-len(x.split('/'))`, i.e. process folders with
more path segments first.  `len(x.split('/')) = count of '/' + 1`. -/
def depthKey (x : List Char) : Nat := x.count '/'

/-- Stable insertion of `x` after every element of at least its depth
(`sorted` is stable, so equal-depth folders keep their relative order). -/
def insertByDepth (x : List Char) : List (List Char) → List (List Char)
  | [] => [x]
  | y :: ys => if depthKey y < depthKey x then x :: y :: ys else y :: insertByDepth x ys

/-- The sort `sorted(folders_to_check, key=lambda x: -len(x.split('/')))`. -/
def sortByDepth (l : List (List Char)) : List (List Char) :=
  l.foldl (fun acc x => insertByDepth x acc) []

/-- The predicate `should_delete` (lines 205-213): list the folder's direct children
(`env folder`; `none` models `dbx.files_list_folder` raising) and check
that every `FileMetadata` entry's name is a target; any exception makes
the check return `False`.  The source reads a single listing page and
ignores `has_more`; `env` is the entry list of that response. -/
def should_delete (env : List Char → Option (List Entry)) (folder : List Char) : Bool :=
  match env folder with
  | none => false
  | some entries =>
    entries.all (fun e => match e with
      | .file n _ => is_target_file n
      | .folder _ _ => true)

/-- Observable behaviour of one `clean_empty_folders` run: the folders
whose children were listed by `should_delete`, the folders passed to
`dbx.files_delete_v2`, and the folders named in a "[DRY RUN] Would
delete" log line. -/
structure RTrace where
  listed : List (List Char)
  deleted : List (List Char)
  logged : List (List Char)
deriving DecidableEq

/-- The per-candidate body (lines 224-235).  Line 228 tests
`folder.startswith(excl)` against the raw (mixed-case) excluded prefixes —
unlike the scan, which compares against `excl.lower()`.  The deletion call
is modelled as succeeding, so the `while retry_count < MAX_RETRIES` retry
wrapper runs its body once and breaks (within `should_delete` every
exception is already caught). -/
def cleanStep (env : List Char → Option (List Entry)) (dryRun : Bool)
    (acc : RTrace) (folder : List Char) : RTrace :=
  if EXCLUDE_FOLDERS.any (fun ex => ex.isPrefixOf folder) then acc
  else
    let acc := { acc with listed := acc.listed ++ [folder] }
    if should_delete env folder then
      if dryRun then { acc with logged := acc.logged ++ [folder] }
      else { acc with deleted := acc.deleted ++ [folder] }
    else acc

/-- The function `clean_empty_folders` (lines 203-244). -/
def clean_empty_folders (env : List Char → Option (List Entry)) (dryRun : Bool)
    (target_files : List (List Char)) : RTrace :=
  (sortByDepth (folders_to_check target_files)).foldl (cleanStep env dryRun) ⟨[], [], []⟩

/-!  The orchestrator `main` (lines 249-321), restricted to the phase structure that claim
C6 is about.  The scan phase is modelled separately (`scan_target_folder`);
`main_model` starts from its `target_files` output.  The two interactive
`input(...)` confirmations are the booleans `confirmDelete` and
`confirmClean` (whether the user answered `y`); both prompts are shown only
in live mode.  The whole-run `while retry_main < 3` reconnect loop is not
modelled: a surfaced exception ends the model (`tdResult = .error`).
Returns `none` when `main` returns before the deletion phase (no targets
found, or the live-mode confirmation was refused), and otherwise the
deletion trace together with the folder-cleanup trace (`none` when the
folder-cleanup phase was not entered). -/
def main_model (dryRun : Bool) (target_files : List (List Char))
    (confirmDelete confirmClean : Bool) (oracle : Nat → Nat → Option Err)
    (env : List Char → Option (List Entry)) :
    Option (Except Err TDTrace × Option RTrace) :=
  if target_files.isEmpty then none
  else if !dryRun && !confirmDelete then none
  else
    match turbo_delete_files dryRun oracle target_files with
    | .error e => some (.error e, none)
    | .ok t =>
      if !dryRun && confirmClean then
        some (.ok t, some (clean_empty_folders env dryRun target_files))
      else some (.ok t, none)

/-- The folder-cleanup component of a `main_model` outcome. -/
def mainReclaim : Option (Except Err TDTrace × Option RTrace) → Option RTrace
  | some (_, r) => r
  | none => none

/-- The deletion-phase component of a `main_model` outcome. -/
def mainDeletion : Option (Except Err TDTrace × Option RTrace) → Option (Except Err TDTrace)
  | some (t, _) => some t
  | none => none

/-!  Theorems. -/

/-- A file entry is never skipped by the excluded-folder test. -/
theorem processEntry_file (acc : List (List Char)) (n p : List Char) :
    processEntry acc (Entry.file n p) = if is_target_file n then acc ++ [p] else acc := rfl

/-- A folder entry never contributes to the target list, whether or not it
is under an excluded prefix. -/
theorem processEntry_folder (acc : List (List Char)) (n p : List Char) :
    processEntry acc (Entry.folder n p) = acc := by
  unfold processEntry
  split
  · rfl
  · rfl

/-- C1 (counterexample): a file entry whose `path_lower` lies under the
excluded prefix `/$ JLR DATA MIGRATION/David/Archive` (compared
case-insensitively, as the spec prescribes) and whose name matches the
naming pattern DOES appear in the TargetSet returned by the scan: the
exclusion test at line 136 fires only for `FolderMetadata` entries, so
`FileMetadata` entries beneath excluded folders are still collected. -/
theorem scan_target_folder_includes_excluded_file :
    underExcluded "/$ jlr data migration/david/archive/memostyle.pdf".toList = true ∧
    scan_target_folder
      (fun _ _ _ => .ok ⟨[Entry.file "memostyle.pdf".toList
        "/$ jlr data migration/david/archive/memostyle.pdf".toList], 0, false⟩) 1 =
      some (.ok ⟨["/$ jlr data migration/david/archive/memostyle.pdf".toList], []⟩) := by
  decide

/-- C1 (amended): during a scan, the exclusion check affects only
folder-type entries, and folder entries never contribute paths to the
TargetSet anyway; the target list collected from the processed entries is
exactly the `path_lower` of every file entry whose name matches
`is_target_file`, regardless of excluded prefixes.  Hence no folder
entry's path ever appears, but a matching file entry under an excluded
prefix does: keeping excluded subtrees out of the TargetSet relies on the
remote listing not enumerating them. -/
theorem scan_targets_are_exactly_matching_file_entries :
    ∀ (entries : List Entry) (acc : List (List Char)),
      processEntries acc entries =
        acc ++ entries.filterMap (fun e => match e with
          | .file n p => if is_target_file n then some p else none
          | .folder _ _ => none) := by
  intro entries
  induction entries with
  | nil => intro acc; simp [processEntries]
  | cons e es ih =>
    intro acc
    cases e with
    | file n p =>
      simp only [processEntries, List.foldl_cons, List.filterMap_cons] at *
      rw [processEntry_file]
      by_cases h : is_target_file n
      · simp only [h, if_true, ih]
        simp
      · simp only [h, if_false, ih]
        simp
    | folder n p =>
      simp only [processEntries, List.foldl_cons, List.filterMap_cons] at *
      rw [processEntry_folder]
      exact ih acc

/-- C4 (code-bug witness): the candidate folder derived from the target
file `/$ jlr data migration/david/archive/memostyle.pdf` lies under the
configured excluded prefix `/$ JLR DATA MIGRATION/David/Archive` when the
prefix is matched case-insensitively against the lowercase-normalised
path, yet `clean_empty_folders` does NOT skip it: line 228 compares
`folder.startswith(excl)` against the raw mixed-case prefixes while every
candidate is lowercase, so the folder's children are listed and the folder
is deleted. -/
theorem clean_empty_folders_deletes_excluded_candidate :
    underExcluded "/$ jlr data migration/david/archive".toList = true ∧
    clean_empty_folders
      (fun f => if f = "/$ jlr data migration/david/archive".toList
        then some [Entry.file "memostyle.pdf".toList
          "/$ jlr data migration/david/archive/memostyle.pdf".toList]
        else some [])
      false
      ["/$ jlr data migration/david/archive/memostyle.pdf".toList] =
    ⟨["/$ jlr data migration/david/archive".toList],
     ["/$ jlr data migration/david/archive".toList], []⟩ := by
  decide

/-- ASCII lowercasing maps no character to a newline except the newline
itself. -/
theorem toLower_ne_nl (c : Char) (h : c ≠ '\n') : Char.toLower c ≠ '\n' := by
  by_cases hc : c.toNat ≥ 65 ∧ c.toNat ≤ 90
  · have hrw : Char.toLower c = Char.ofNat (c.toNat + 32) := by
      simp [Char.toLower, hc]
    rw [hrw]
    obtain ⟨h1, h2⟩ := hc
    intro heq
    set n := c.toNat with hn
    interval_cases n <;> exact absurd heq (by decide)
  · have hrw : Char.toLower c = c := by simp [Char.toLower, hc]
    rw [hrw]; exact h

/-- A newline-free string stays newline-free under lowercasing. -/
theorem nl_not_mem_lowerStr {l : List Char} (h : '\n' ∉ l) : '\n' ∉ lowerStr l := by
  simp only [lowerStr, List.mem_map]
  rintro ⟨c, hc, hlc⟩
  exact toLower_ne_nl c (fun hcn => h (hcn ▸ hc)) hlc

/-- Tails of newline-free strings are newline-free. -/
theorem nl_not_mem_of_cons {c : Char} {l : List Char} (h : '\n' ∉ c :: l) : '\n' ∉ l :=
  fun hm => h (List.mem_cons_of_mem _ hm)

/-- The function `dropWhile` only removes elements. -/
theorem mem_of_mem_dropWhile {p : Char → Bool} {a : Char} :
    ∀ {l : List Char}, a ∈ l.dropWhile p → a ∈ l := by
  intro l
  induction l with
  | nil => exact fun h => h
  | cons c cs ih =>
    intro h
    rw [List.dropWhile_cons] at h
    by_cases hp : p c
    · simp only [hp, if_true] at h
      exact List.mem_cons_of_mem _ (ih h)
    · simp only [hp, if_false] at h
      exact h

/-- On newline-free input, the first pattern and the first spec surface
form agree: the extra `$`-before-final-newline disjunct cannot fire. -/
theorem p1At_eq_specForm1At {l : List Char} (h : '\n' ∉ l) : p1At l = specForm1At l := by
  have hr : '\n' ∉ dropSeps (l.drop 4) := fun hm =>
    (fun hd => h (List.mem_of_mem_drop hd)) (mem_of_mem_dropWhile hm)
  have hb : (dropSeps (l.drop 4) == "style.pdf\n".toList) = false := by
    refine beq_eq_false_iff_ne.mpr (fun he => hr ?_)
    rw [he]; decide
  simp only [p1At, specForm1At, hb, Bool.or_false]

/-- On newline-free input, the second pattern and the second spec surface
form agree. -/
theorem p2At_eq_specForm2At {l : List Char} (h : '\n' ∉ l) : p2At l = specForm2At l := by
  simp only [p2At, specForm2At]
  have hb : (l == "memostyle.pdf\n".toList) = false := by
    refine beq_eq_false_iff_ne.mpr (fun he => h ?_)
    rw [he]; decide
  rw [hb, Bool.or_false]

/-- On newline-free input, the `.*\.pdf$` remainder check and the spec's
"arbitrary characters then `.pdf`" remainder check agree. -/
theorem p3tail_eq_specTail : ∀ {l : List Char}, '\n' ∉ l → p3tail l = specTail l := by
  intro l
  induction l with
  | nil => exact fun _ => rfl
  | cons c cs ih =>
    intro h
    have hnl : (c == '\n') = false :=
      beq_eq_false_iff_ne.mpr (fun e => h (e ▸ List.mem_cons_self c cs))
    have hb : (c :: cs == ".pdf\n".toList) = false := by
      refine beq_eq_false_iff_ne.mpr (fun he => h ?_)
      rw [he]; decide
    simp only [p3tail, specTail, hb, hnl, Bool.or_false, Bool.false_or, Bool.not_false,
      Bool.true_and, ih (nl_not_mem_of_cons h)]

/-- On newline-free input, the third pattern and the third spec surface
form agree. -/
theorem p3At_eq_specForm3At {l : List Char} (h : '\n' ∉ l) : p3At l = specForm3At l := by
  have hr : '\n' ∉ dropSeps (l.drop 4) := fun hm =>
    (fun hd => h (List.mem_of_mem_drop hd)) (mem_of_mem_dropWhile hm)
  have hr5 : '\n' ∉ (dropSeps (l.drop 4)).drop 5 := fun hm => hr (List.mem_of_mem_drop hm)
  simp only [p3At, specForm3At, p3tail_eq_specTail hr5]

/-- The search `re.search` respects pointwise agreement of the per-position matchers
on newline-free suffixes. -/
theorem searchB_congr {p q : List Char → Bool}
    (hpq : ∀ l, '\n' ∉ l → p l = q l) :
    ∀ {l : List Char}, '\n' ∉ l → searchB p l = searchB q l := by
  intro l
  induction l with
  | nil => exact fun h => hpq [] h
  | cons c cs ih =>
    intro h
    simp only [searchB]
    rw [hpq _ h, ih (nl_not_mem_of_cons h)]

/-- C3 (counterexample): the claim's "iff" fails on names containing a
newline.  `is_target_file "memostyle.pdf\n"` is true — Python's `$`
matches just before a final newline — although the name does not end with
any of the three surface forms (it does not even end with `.pdf`), so the
claim's "returns false for all non-`.pdf` names" is violated. -/
theorem is_target_file_accepts_trailing_newline :
    is_target_file "memostyle.pdf\n".toList = true ∧
    spec_is_target "memostyle.pdf\n".toList = false ∧
    ".pdf".toList.isSuffixOf (lowerStr "memostyle.pdf\n".toList) = false := by
  decide

/-- C3 (amended): for every name without a newline character,
`is_target_file` returns true iff the name, case-insensitively, ends with
one of the three surface forms (the separator run being any whitespace,
hyphens or underscores).  On names containing newlines the code differs
from the spec wording: a single trailing newline after a form is accepted,
and the "arbitrary characters" of the third form exclude newlines. -/
theorem is_target_file_matches_spec_forms :
    ∀ (filename : List Char), '\n' ∉ filename →
      is_target_file filename = spec_is_target filename := by
  intro name h
  have hl : '\n' ∉ lowerStr name := nl_not_mem_lowerStr h
  simp only [is_target_file, spec_is_target]
  rw [searchB_congr (fun _ hn => p1At_eq_specForm1At hn) hl,
    searchB_congr (fun _ hn => p2At_eq_specForm2At hn) hl,
    searchB_congr (fun _ hn => p3At_eq_specForm3At hn) hl]

/-- Witness for C3's amended theorem at the concrete name
`Memo-Style.pdf`. -/
theorem is_target_file_matches_spec_forms_witness :
    ('\n' ∉ "Memo-Style.pdf".toList) ∧
      is_target_file "Memo-Style.pdf".toList = spec_is_target "Memo-Style.pdf".toList :=
  ⟨by decide, is_target_file_matches_spec_forms "Memo-Style.pdf".toList (by decide)⟩

/-- A folder in the `deleted` component of one `cleanStep` either was
already there or passed `should_delete`. -/
theorem cleanStep_deleted_sub (env : List Char → Option (List Entry)) (dryRun : Bool)
    (acc : RTrace) (x f : List Char)
    (hf : f ∈ (cleanStep env dryRun acc x).deleted) :
    f ∈ acc.deleted ∨ should_delete env f = true := by
  simp only [cleanStep] at hf
  split_ifs at hf with h1 h2 h3
  · exact Or.inl hf
  · exact Or.inl hf
  · rcases List.mem_append.mp hf with h | h
    · exact Or.inl h
    · have hx : f = x := List.mem_singleton.mp h
      exact Or.inr (hx ▸ h2)
  · exact Or.inl hf

/-- A folder in the `logged` component of one `cleanStep` either was
already there or passed `should_delete`. -/
theorem cleanStep_logged_sub (env : List Char → Option (List Entry)) (dryRun : Bool)
    (acc : RTrace) (x f : List Char)
    (hf : f ∈ (cleanStep env dryRun acc x).logged) :
    f ∈ acc.logged ∨ should_delete env f = true := by
  simp only [cleanStep] at hf
  split_ifs at hf with h1 h2 h3
  · exact Or.inl hf
  · rcases List.mem_append.mp hf with h | h
    · exact Or.inl h
    · have hx : f = x := List.mem_singleton.mp h
      exact Or.inr (hx ▸ h2)
  · exact Or.inl hf
  · exact Or.inl hf

/-- Every folder deleted by the candidate fold passed `should_delete`. -/
theorem cleanFold_deleted (env : List Char → Option (List Entry)) (dryRun : Bool) :
    ∀ (l : List (List Char)) (acc : RTrace) (f : List Char),
      f ∈ (l.foldl (cleanStep env dryRun) acc).deleted →
      f ∈ acc.deleted ∨ should_delete env f = true := by
  intro l
  induction l with
  | nil => exact fun acc f hf => Or.inl hf
  | cons x xs ih =>
    intro acc f hf
    simp only [List.foldl_cons] at hf
    rcases ih _ f hf with h | h
    · exact cleanStep_deleted_sub env dryRun acc x f h
    · exact Or.inr h

/-- Every folder logged by the candidate fold passed `should_delete`. -/
theorem cleanFold_logged (env : List Char → Option (List Entry)) (dryRun : Bool) :
    ∀ (l : List (List Char)) (acc : RTrace) (f : List Char),
      f ∈ (l.foldl (cleanStep env dryRun) acc).logged →
      f ∈ acc.logged ∨ should_delete env f = true := by
  intro l
  induction l with
  | nil => exact fun acc f hf => Or.inl hf
  | cons x xs ih =>
    intro acc f hf
    simp only [List.foldl_cons] at hf
    rcases ih _ f hf with h | h
    · exact cleanStep_logged_sub env dryRun acc x f h
    · exact Or.inr h

/-- C2: `reclaim` deletes a candidate folder only if, at check time, the
listing of its direct children succeeded and every `FileMetadata` entry in
it has a target name; consequently it never deletes a folder that directly
contains a non-target file.  Conversely (second conjunct) folder-type
children never block the check: a listing whose file entries are all
targets passes `should_delete` no matter which sub-folders it contains. -/
theorem reclaim_deletes_only_all_target_folders :
    (∀ (env : List Char → Option (List Entry)) (dryRun : Bool)
      (target_files : List (List Char)) (folder : List Char),
      folder ∈ (clean_empty_folders env dryRun target_files).deleted →
      ∃ entries, env folder = some entries ∧
        ∀ e ∈ entries, ∀ n p, e = Entry.file n p → is_target_file n = true) ∧
    (∀ (env : List Char → Option (List Entry)) (folder : List Char)
      (entries : List Entry), env folder = some entries →
      (∀ e ∈ entries, ∀ n p, e = Entry.file n p → is_target_file n = true) →
      should_delete env folder = true) := by
  constructor
  · intro env dryRun T folder hf
    rcases cleanFold_deleted env dryRun _ _ folder hf with h | h
    · exact absurd h (List.not_mem_nil folder)
    · simp only [should_delete] at h
      cases he : env folder with
      | none => rw [he] at h; exact absurd h (by decide)
      | some es =>
        rw [he] at h
        refine ⟨es, rfl, ?_⟩
        intro e he' n p hep
        have hall := List.all_eq_true.mp h e he'
        rw [hep] at hall
        exact hall
  · intro env folder es he hall
    simp only [should_delete, he]
    refine List.all_eq_true.mpr ?_
    intro e he'
    cases e with
    | file n p => exact hall (Entry.file n p) he' n p rfl
    | folder n p => rfl

/-- Witness for C2 at a concrete run: the folder
`/$ jlr data migration/david/work` (whose only file child is a target) is
deleted, and the theorem yields its all-target listing. -/
theorem reclaim_deletes_only_all_target_folders_witness :
    ("/$ jlr data migration/david/work".toList ∈
      (clean_empty_folders
        (fun f => if f = "/$ jlr data migration/david/work".toList
          then some [Entry.file "memostyle.pdf".toList
            "/$ jlr data migration/david/work/memostyle.pdf".toList]
          else some [])
        false
        ["/$ jlr data migration/david/work/memostyle.pdf".toList]).deleted) ∧
    ∃ entries,
      (fun f => if f = "/$ jlr data migration/david/work".toList
        then some [Entry.file "memostyle.pdf".toList
          "/$ jlr data migration/david/work/memostyle.pdf".toList]
        else some []) "/$ jlr data migration/david/work".toList = some entries ∧
      ∀ e ∈ entries, ∀ n p, e = Entry.file n p → is_target_file n = true :=
  ⟨by decide,
   reclaim_deletes_only_all_target_folders.1
     (fun f => if f = "/$ jlr data migration/david/work".toList
       then some [Entry.file "memostyle.pdf".toList
         "/$ jlr data migration/david/work/memostyle.pdf".toList]
       else some [])
     false
     ["/$ jlr data migration/david/work/memostyle.pdf".toList]
     "/$ jlr data migration/david/work".toList (by decide)⟩

/-- C10: when listing a candidate folder's direct children raises
(`env folder = none`), `should_delete` conservatively returns false and
`reclaim` neither deletes the folder nor logs an intended deletion. -/
theorem reclaim_skips_unlistable_folder :
    ∀ (env : List Char → Option (List Entry)) (dryRun : Bool)
      (target_files : List (List Char)) (folder : List Char),
      env folder = none →
      folder ∉ (clean_empty_folders env dryRun target_files).deleted ∧
      folder ∉ (clean_empty_folders env dryRun target_files).logged := by
  intro env dryRun T folder he
  have hsd : should_delete env folder = false := by
    simp only [should_delete, he]
  constructor
  · intro hf
    rcases cleanFold_deleted env dryRun _ _ folder hf with h | h
    · exact absurd h (List.not_mem_nil folder)
    · rw [hsd] at h; exact absurd h (by decide)
  · intro hf
    rcases cleanFold_logged env dryRun _ _ folder hf with h | h
    · exact absurd h (List.not_mem_nil folder)
    · rw [hsd] at h; exact absurd h (by decide)

/-- Witness for C10 at a concrete run: with every listing failing, the
candidate folder is neither deleted nor logged. -/
theorem reclaim_skips_unlistable_folder_witness :
    ("/$ jlr data migration/david/work".toList ∉
      (clean_empty_folders (fun _ => none) false
        ["/$ jlr data migration/david/work/memostyle.pdf".toList]).deleted) ∧
    ("/$ jlr data migration/david/work".toList ∉
      (clean_empty_folders (fun _ => none) false
        ["/$ jlr data migration/david/work/memostyle.pdf".toList]).logged) :=
  reclaim_skips_unlistable_folder (fun _ => none) false
    ["/$ jlr data migration/david/work/memostyle.pdf".toList]
    "/$ jlr data migration/david/work".toList rfl

/-- Evaluation of `racGo` on a successful invocation. -/
theorem racGo_ok {α : Type} {op : Nat → Except Err α} {a : Nat} {v : α}
    (h : op a = .ok v) (r : Nat) (c : ℚ) : racGo op a r c = (.ok v, []) := by
  unfold racGo
  rw [h]

/-- Evaluation of `racGo` on a non-transient error: immediate propagation. -/
theorem racGo_err_nontrans {α : Type} {op : Nat → Except Err α} {a : Nat} {e : Err}
    (h : op a = .error e) (ht : isTransient e = false) (r : Nat) (c : ℚ) :
    racGo op a r c = (.error e, []) := by
  unfold racGo
  rw [h]
  simp [ht]

/-- Evaluation of `racGo` on a transient error with no attempts left: raise the error. -/
theorem racGo_err_last {α : Type} {op : Nat → Except Err α} {a : Nat} {e : Err}
    (h : op a = .error e) (ht : isTransient e = true) (c : ℚ) :
    racGo op a 0 c = (.error e, []) := by
  unfold racGo
  rw [h]
  simp [ht]

/-- Evaluation of `racGo` on a transient error with attempts left: sleep
`c * BACKOFF_FACTOR` and recurse with the compounded timeout. -/
theorem racGo_err_step {α : Type} {op : Nat → Except Err α} {a : Nat} {e : Err}
    (h : op a = .error e) (ht : isTransient e = true) (r : Nat) (c : ℚ) :
    racGo op a (r + 1) c =
      ((racGo op (a + 1) r (c * BACKOFF_FACTOR)).1,
        c * BACKOFF_FACTOR :: (racGo op (a + 1) r (c * BACKOFF_FACTOR)).2) := by
  conv_lhs => rw [racGo]
  rw [h]
  simp [ht]

/-- The loop `racGo` consults the oracle only at the attempt indices it can reach. -/
theorem racGo_congr {α : Type} (op op' : Nat → Except Err α) :
    ∀ (r a : Nat) (c : ℚ), (∀ i, a ≤ i → i ≤ a + r → op i = op' i) →
      racGo op a r c = racGo op' a r c := by
  intro r
  induction r with
  | zero =>
    intro a c h
    have ha : op a = op' a := h a le_rfl (by omega)
    cases hop : op' a with
    | ok v => rw [racGo_ok (ha.trans hop), racGo_ok hop]
    | error e =>
      cases ht : isTransient e with
      | false => rw [racGo_err_nontrans (ha.trans hop) ht, racGo_err_nontrans hop ht]
      | true => rw [racGo_err_last (ha.trans hop) ht, racGo_err_last hop ht]
  | succ r ih =>
    intro a c h
    have ha : op a = op' a := h a le_rfl (by omega)
    cases hop : op' a with
    | ok v => rw [racGo_ok (ha.trans hop), racGo_ok hop]
    | error e =>
      cases ht : isTransient e with
      | false => rw [racGo_err_nontrans (ha.trans hop) ht, racGo_err_nontrans hop ht]
      | true =>
        rw [racGo_err_step (ha.trans hop) ht, racGo_err_step hop ht,
          ih (a + 1) (c * BACKOFF_FACTOR) (fun i h1 h2 => h i (by omega) (by omega))]

/-- Every wait produced by `racGo` follows the compounding schedule
`c * BACKOFF_FACTOR ^ (i+1)`. -/
theorem racGo_waits {α : Type} (op : Nat → Except Err α) :
    ∀ (r a : Nat) (c : ℚ) (i : Nat) (w : ℚ),
      (racGo op a r c).2.get? i = some w → w = c * BACKOFF_FACTOR ^ (i + 1) := by
  intro r
  induction r with
  | zero =>
    intro a c i w h
    cases hop : op a with
    | ok v => rw [racGo_ok hop] at h; simp at h
    | error e =>
      cases ht : isTransient e with
      | false => rw [racGo_err_nontrans hop ht] at h; simp at h
      | true => rw [racGo_err_last hop ht] at h; simp at h
  | succ r ih =>
    intro a c i w h
    cases hop : op a with
    | ok v => rw [racGo_ok hop] at h; simp at h
    | error e =>
      cases ht : isTransient e with
      | false => rw [racGo_err_nontrans hop ht] at h; simp at h
      | true =>
        rw [racGo_err_step hop ht] at h
        cases i with
        | zero =>
          simp only [List.get?] at h
          rw [pow_one]
          exact (Option.some_inj.mp h).symm
        | succ i =>
          simp only [List.get?] at h
          have := ih (a + 1) (c * BACKOFF_FACTOR) i w h
          rw [this, pow_succ, pow_succ]
          ring

/-- After `k` transient failures, a non-transient error at attempt `k`
propagates immediately: the result is that error and exactly `k` back-off
sleeps happened. -/
theorem racGo_nontransient {α : Type} (op : Nat → Except Err α) :
    ∀ (k r a : Nat) (c : ℚ) (e : Err), k ≤ r →
      (∀ j, j < k → ∃ e', op (a + j) = .error e' ∧ isTransient e' = true) →
      op (a + k) = .error e → isTransient e = false →
      (racGo op a r c).1 = .error e ∧ (racGo op a r c).2.length = k := by
  intro k
  induction k with
  | zero =>
    intro r a c e _ _ hk ht
    rw [Nat.add_zero] at hk
    rw [racGo_err_nontrans hk ht]
    exact ⟨rfl, rfl⟩
  | succ k ih =>
    intro r a c e hkr hj hk ht
    obtain ⟨e0, he0, ht0⟩ := hj 0 (Nat.succ_pos k)
    rw [Nat.add_zero] at he0
    cases r with
    | zero => omega
    | succ r =>
      have hrec := ih r (a + 1) (c * BACKOFF_FACTOR) e (by omega)
        (fun j hjk => by
          have := hj (j + 1) (by omega)
          rwa [show a + (j + 1) = a + 1 + j by omega] at this)
        (by rwa [show a + 1 + k = a + (k + 1) by omega])
        ht
      rw [racGo_err_step he0 ht0]
      exact ⟨hrec.1, by simp [hrec.2]⟩

/-- When every allowed attempt fails transiently, `racGo` returns the last
error after `r` back-off sleeps. -/
theorem racGo_exhaust {α : Type} (op : Nat → Except Err α) :
    ∀ (r a : Nat) (c : ℚ) (e : Err),
      (∀ j, j < r → ∃ e', op (a + j) = .error e' ∧ isTransient e' = true) →
      op (a + r) = .error e → isTransient e = true →
      (racGo op a r c).1 = .error e ∧ (racGo op a r c).2.length = r := by
  intro r
  induction r with
  | zero =>
    intro a c e _ hk ht
    rw [Nat.add_zero] at hk
    rw [racGo_err_last hk ht]
    exact ⟨rfl, rfl⟩
  | succ r ih =>
    intro a c e hj hk ht
    obtain ⟨e0, he0, ht0⟩ := hj 0 (Nat.succ_pos r)
    rw [Nat.add_zero] at he0
    have hrec := ih (a + 1) (c * BACKOFF_FACTOR) e
      (fun j hjk => by
        have := hj (j + 1) (by omega)
        rwa [show a + (j + 1) = a + 1 + j by omega] at this)
      (by rwa [show a + 1 + r = a + (r + 1) by omega])
      ht
    rw [racGo_err_step he0 ht0]
    exact ⟨hrec.1, by simp [hrec.2]⟩

/-- C5: the retry executor (i) consults the wrapped operation at most
`MAX_RETRIES + 1 = 6` times — its behaviour depends only on the outcomes of
invocations `0..5`; (ii) waits `INITIAL_TIMEOUT * BACKOFF_FACTOR ^ k`
before the k-th retry (`current_timeout` compounds by `backoff_factor`
after every retry); (iii) propagates a non-transient error immediately,
with no further invocation and no additional sleep; (iv) after exhausting
the ceiling on transient errors, raises the last underlying error. -/
theorem robust_api_call_spec :
    (∀ {α : Type} (op op' : Nat → Except Err α),
      (∀ i, i ≤ MAX_RETRIES → op i = op' i) →
      robust_api_call op = robust_api_call op') ∧
    (∀ {α : Type} (op : Nat → Except Err α) (i : Nat) (w : ℚ),
      (robust_api_call op).2.get? i = some w →
      w = INITIAL_TIMEOUT * BACKOFF_FACTOR ^ (i + 1)) ∧
    (∀ {α : Type} (op : Nat → Except Err α) (k : Nat) (e : Err), k ≤ MAX_RETRIES →
      (∀ j, j < k → ∃ e', op j = .error e' ∧ isTransient e' = true) →
      op k = .error e → isTransient e = false →
      (robust_api_call op).1 = .error e ∧ (robust_api_call op).2.length = k) ∧
    (∀ {α : Type} (op : Nat → Except Err α) (e : Err),
      (∀ j, j < MAX_RETRIES → ∃ e', op j = .error e' ∧ isTransient e' = true) →
      op MAX_RETRIES = .error e → isTransient e = true →
      (robust_api_call op).1 = .error e ∧
        (robust_api_call op).2.length = MAX_RETRIES) := by
  refine ⟨?_, ?_, ?_, ?_⟩
  · intro α op op' h
    exact racGo_congr op op' MAX_RETRIES 0 INITIAL_TIMEOUT
      (fun i h1 h2 => h i (by omega))
  · intro α op i w h
    exact racGo_waits op MAX_RETRIES 0 INITIAL_TIMEOUT i w h
  · intro α op k e hk hj he ht
    exact racGo_nontransient op k MAX_RETRIES 0 INITIAL_TIMEOUT e hk
      (fun j hjk => by simpa using hj j hjk) (by simpa using he) ht
  · intro α op e hj he ht
    exact racGo_exhaust op MAX_RETRIES 0 INITIAL_TIMEOUT e
      (fun j hjk => by simpa using hj j hjk) (by simpa using he) ht

/-- Witness for C5: an operation that always read-times-out is retried to
exhaustion (5 sleeps) and the last error is raised; an operation that
fails with an authorization error propagates at once with no sleep. -/
theorem robust_api_call_spec_witness :
    ((robust_api_call (fun _ => (Except.error Err.readTimeout : Except Err Unit))).1 =
        .error Err.readTimeout ∧
      (robust_api_call (fun _ => (Except.error Err.readTimeout : Except Err Unit))).2.length =
        MAX_RETRIES) ∧
    ((robust_api_call (fun _ => (Except.error Err.authError : Except Err Unit))).1 =
        .error Err.authError ∧
      (robust_api_call (fun _ => (Except.error Err.authError : Except Err Unit))).2.length =
        0) :=
  ⟨robust_api_call_spec.2.2.2 (fun _ => .error Err.readTimeout) Err.readTimeout
      (fun _ _ => ⟨Err.readTimeout, rfl, by decide⟩) rfl (by decide),
   robust_api_call_spec.2.2.1 (fun _ => .error Err.authError) 0 Err.authError (by decide)
      (fun j hj => absurd hj (by omega)) rfl (by decide)⟩

/-- Evaluation of `chunksAux` on the empty list, whatever the fuel. -/
theorem chunksAux_nil {α : Type} : ∀ f : Nat, chunksAux f ([] : List α) = []
  | 0 => rfl
  | _ + 1 => rfl

/-- The function `chunksAux` does not depend on the fuel once it covers the length. -/
theorem chunksAux_fuel {α : Type} :
    ∀ (f g : Nat) (l : List α), l.length ≤ f → l.length ≤ g →
      chunksAux f l = chunksAux g l := by
  intro f
  induction f with
  | zero =>
    intro g l hf _
    have : l = [] := List.eq_nil_of_length_eq_zero (by omega)
    rw [this, chunksAux_nil, chunksAux_nil]
  | succ f ih =>
    intro g l hf hg
    cases l with
    | nil => rw [chunksAux_nil, chunksAux_nil]
    | cons x xs =>
      cases g with
      | zero => simp at hg
      | succ g =>
        simp only [chunksAux]
        rw [ih g ((x :: xs).drop 100)
          (by rw [List.length_drop]; simp only [List.length_cons] at hf ⊢; omega)
          (by rw [List.length_drop]; simp only [List.length_cons] at hg ⊢; omega)]

/-- Unfolding `chunks` on a nonempty list. -/
theorem chunks_cons_eq {α : Type} (l : List α) (h : l ≠ []) :
    chunks l = l.take 100 :: chunks (l.drop 100) := by
  cases l with
  | nil => exact absurd rfl h
  | cons x xs =>
    simp only [chunks, List.length_cons, chunksAux]
    rw [chunksAux_fuel xs.length ((x :: xs).drop 100).length ((x :: xs).drop 100)
      (by rw [List.length_drop]; simp only [List.length_cons]; omega) le_rfl]

/-- The batches partition the input: their concatenation is the input. -/
theorem chunks_flatten {α : Type} : ∀ l : List α, (chunks l).flatten = l := by
  have aux : ∀ (f : Nat) (l : List α), l.length ≤ f → (chunksAux f l).flatten = l := by
    intro f
    induction f with
    | zero =>
      intro l hf
      have : l = [] := List.eq_nil_of_length_eq_zero (by omega)
      rw [this, chunksAux_nil]; rfl
    | succ f ih =>
      intro l hf
      cases l with
      | nil => rw [chunksAux_nil]; rfl
      | cons x xs =>
        simp only [chunksAux, List.flatten_cons]
        rw [ih ((x :: xs).drop 100)
          (by rw [List.length_drop]; simp only [List.length_cons] at hf ⊢; omega)]
        exact List.take_append_drop 100 (x :: xs)
  exact fun l => aux l.length l le_rfl

/-- Collecting an uncaught exception over all-`.ok` pass-1 results finds
none. -/
theorem findSome?_map_ok (b : Nat → Bool) :
    ∀ l : List Nat,
      (l.map (fun i => (i, (Except.ok (b i) : Except Err Bool)))).findSome? tdFirstErr =
        none := by
  intro l
  induction l with
  | nil => rfl
  | cons i is ih =>
    simp only [List.map_cons, List.findSome?]
    rw [show tdFirstErr (i, Except.ok (b i)) = none from rfl]
    exact ih

/-- The pass-1 successes of all-`.ok` results are the indices whose flag is
true. -/
theorem filterMap_map_ok_true (b : Nat → Bool) :
    ∀ l : List Nat,
      (l.map (fun i => (i, (Except.ok (b i) : Except Err Bool)))).filterMap tdOkTrue =
        l.filter b := by
  intro l
  induction l with
  | nil => rfl
  | cons i is ih =>
    simp only [List.map_cons, List.filterMap_cons, List.filter_cons]
    cases hb : b i with
    | true =>
      rw [show tdOkTrue (i, Except.ok true) = some i from rfl]
      simp [ih]
    | false =>
      rw [show tdOkTrue (i, Except.ok false) = none from rfl]
      simp [ih]

/-- The pass-1 failed batches of all-`.ok` results are the indices whose
flag is false. -/
theorem filterMap_map_ok_false (b : Nat → Bool) :
    ∀ l : List Nat,
      (l.map (fun i => (i, (Except.ok (b i) : Except Err Bool)))).filterMap tdOkFalse =
        l.filter (fun i => !(b i)) := by
  intro l
  induction l with
  | nil => rfl
  | cons i is ih =>
    simp only [List.map_cons, List.filterMap_cons, List.filter_cons]
    cases hb : b i with
    | true =>
      rw [show tdOkFalse (i, Except.ok true) = none from rfl]
      simp [ih]
    | false =>
      rw [show tdOkFalse (i, Except.ok false) = some i from rfl]
      simp [ih]

/-- The serial retry pass under benign outcomes (success or `ApiError`
only): every failed batch is retried exactly once, in order; retry
successes and abandonments are split by the pass-2 outcome; no exception
escapes. -/
theorem retryLoop_benign (oracle2 : Nat → Option Err)
    (h : ∀ i, oracle2 i = none ∨ oracle2 i = some Err.apiError) :
    ∀ l : List Nat,
      retryLoop false oracle2 l =
        .ok (l, (l.filter (fun i => decide (oracle2 i = none))).length,
          l.filter (fun i => !(decide (oracle2 i = none))),
          l.filter (fun i => decide (oracle2 i = none))) := by
  intro l
  induction l with
  | nil => rfl
  | cons i is ih =>
    rcases h i with hi | hi
    · have hdb : delete_batch false (oracle2 i) = .ok true := by
        rw [hi]; rfl
      simp only [retryLoop, hdb, ih]
      simp [List.filter_cons, hi]
    · have hdb : delete_batch false (oracle2 i) = .ok false := by
        rw [hi]; rfl
      simp only [retryLoop, hdb, ih]
      simp [List.filter_cons, hi]

/-- Full evaluation of a live `turbo_delete_files` run under benign
outcomes (every `files_delete_batch` call either succeeds or raises
`ApiError`): pass 1 issues one call per batch, the batches whose pass-1
call failed are retried once in order, and the trace components are the
corresponding filters of the batch index range. -/
theorem turbo_benign_eq (file_paths : List (List Char)) (oracle : Nat → Nat → Option Err)
    (benign : ∀ p i, oracle p i = none ∨ oracle p i = some Err.apiError) :
    turbo_delete_files false oracle file_paths =
      .ok ⟨chunks file_paths,
        List.range (chunks file_paths).length ++
          (List.range (chunks file_paths).length).filter
            (fun i => !(decide (oracle 0 i = none))),
        ((List.range (chunks file_paths).length).filter
            (fun i => decide (oracle 0 i = none))).length +
          (((List.range (chunks file_paths).length).filter
            (fun i => !(decide (oracle 0 i = none)))).filter
              (fun i => decide (oracle 1 i = none))).length,
        ((List.range (chunks file_paths).length).filter
            (fun i => !(decide (oracle 0 i = none)))).filter
          (fun i => !(decide (oracle 1 i = none))),
        (List.range (chunks file_paths).length).filter
            (fun i => decide (oracle 0 i = none)) ++
          ((List.range (chunks file_paths).length).filter
            (fun i => !(decide (oracle 0 i = none)))).filter
            (fun i => decide (oracle 1 i = none))⟩ := by
  have hmap : (fun i => (i, delete_batch false (oracle 0 i))) =
      (fun i => (i, (Except.ok (decide (oracle 0 i = none)) : Except Err Bool))) := by
    funext i
    rcases benign 0 i with h0 | h0 <;> rw [h0] <;> rfl
  simp only [turbo_delete_files]
  rw [hmap, findSome?_map_ok, filterMap_map_ok_true, filterMap_map_ok_false,
    retryLoop_benign (oracle 1) (benign 1)]
  rfl

/-- Full evaluation of a dry-run `turbo_delete_files` run: every batch is
processed and logged, no `files_delete_batch` call is issued, nothing
fails, nothing is retried. -/
theorem turbo_dry_eq (oracle : Nat → Nat → Option Err) (file_paths : List (List Char)) :
    turbo_delete_files true oracle file_paths =
      .ok ⟨chunks file_paths, [], (chunks file_paths).length, [],
        List.range (chunks file_paths).length⟩ := by
  have hmap : (fun i => (i, delete_batch true (oracle 0 i))) =
      (fun i => (i, (Except.ok ((fun _ => true) i) : Except Err Bool))) := by
    funext i
    rfl
  simp only [turbo_delete_files]
  rw [hmap, findSome?_map_ok, filterMap_map_ok_true, filterMap_map_ok_false]
  simp [retryLoop]

/-- C7: in a live run whose batch deletions either succeed or fail with a
remote `ApiError`, `turbo_delete_files` attempts every batch at most
twice: exactly once in the concurrent pass, plus exactly one serial retry
iff the concurrent attempt failed with an `ApiError`; batches that fail
the serial retry too are recorded as abandoned (logged, not raised); the
whole call returns normally rather than raising for partial batch
failure. -/
theorem turbo_delete_retries_each_failed_batch_once :
    ∀ (file_paths : List (List Char)) (oracle : Nat → Nat → Option Err),
      (∀ p i, oracle p i = none ∨ oracle p i = some Err.apiError) →
      ∃ t, turbo_delete_files false oracle file_paths = .ok t ∧
        t.batches = chunks file_paths ∧
        (∀ i, t.callIdx.count i ≤ 2) ∧
        (∀ i, i < t.batches.length →
          t.callIdx.count i = if oracle 0 i = some Err.apiError then 2 else 1) ∧
        (∀ i, t.batches.length ≤ i → t.callIdx.count i = 0) ∧
        (∀ i, i ∈ t.abandoned ↔
          (i < t.batches.length ∧ oracle 0 i = some Err.apiError ∧
            oracle 1 i = some Err.apiError)) := by
  intro paths oracle benign
  refine ⟨_, turbo_benign_eq paths oracle benign, rfl, ?_, ?_, ?_, ?_⟩
  · intro i
    show ((List.range (chunks paths).length ++
      (List.range (chunks paths).length).filter
        (fun i => !(decide (oracle 0 i = none)))).count i) ≤ 2
    rw [List.count_append]
    have h1 := List.nodup_iff_count_le_one.mp (List.nodup_range (chunks paths).length) i
    have h2 := List.nodup_iff_count_le_one.mp
      ((List.nodup_range (chunks paths).length).filter
        (fun i => !(decide (oracle 0 i = none)))) i
    omega
  · intro i hi
    show ((List.range (chunks paths).length ++
      (List.range (chunks paths).length).filter
        (fun i => !(decide (oracle 0 i = none)))).count i) =
      if oracle 0 i = some Err.apiError then 2 else 1
    rw [List.count_append]
    have hr : (List.range (chunks paths).length).count i = 1 :=
      List.count_eq_one_of_mem (List.nodup_range _) (List.mem_range.mpr hi)
    rcases benign 0 i with h0 | h0
    · have hnm : i ∉ (List.range (chunks paths).length).filter
          (fun i => !(decide (oracle 0 i = none))) := by
        simp [List.mem_filter, h0]
      rw [List.count_eq_zero_of_not_mem hnm, hr]
      simp [h0]
    · have hm : i ∈ (List.range (chunks paths).length).filter
          (fun i => !(decide (oracle 0 i = none))) := by
        simp [List.mem_filter, List.mem_range, hi, h0]
      have hc : ((List.range (chunks paths).length).filter
          (fun i => !(decide (oracle 0 i = none)))).count i = 1 :=
        List.count_eq_one_of_mem
          ((List.nodup_range _).filter (fun i => !(decide (oracle 0 i = none)))) hm
      rw [hc, hr]
      simp [h0]
  · intro i hi
    show ((List.range (chunks paths).length ++
      (List.range (chunks paths).length).filter
        (fun i => !(decide (oracle 0 i = none)))).count i) = 0
    rw [List.count_append]
    have hi2 : (chunks paths).length ≤ i := hi
    have hnr : i ∉ List.range (chunks paths).length := by
      simp [List.mem_range]; omega
    have hnf : i ∉ (List.range (chunks paths).length).filter
        (fun i => !(decide (oracle 0 i = none))) := by
      intro hm
      exact hnr (List.mem_of_mem_filter hm)
    rw [List.count_eq_zero_of_not_mem hnr, List.count_eq_zero_of_not_mem hnf]
  · intro i
    show i ∈ ((List.range (chunks paths).length).filter
        (fun i => !(decide (oracle 0 i = none)))).filter
        (fun i => !(decide (oracle 1 i = none))) ↔ _
    simp only [List.mem_filter, List.mem_range]
    constructor
    · rintro ⟨⟨hir, h0⟩, h1⟩
      rcases benign 0 i with hb0 | hb0
      · rw [hb0] at h0; simp at h0
      · rcases benign 1 i with hb1 | hb1
        · rw [hb1] at h1; simp at h1
        · exact ⟨hir, hb0, hb1⟩
    · rintro ⟨hir, hb0, hb1⟩
      refine ⟨⟨hir, ?_⟩, ?_⟩
      · simp [hb0]
      · simp [hb1]

/-- Witness for C7: 150 paths (2 batches), batch 0 failing its concurrent
attempt with an `ApiError` and succeeding on the serial retry. -/
theorem turbo_delete_retries_each_failed_batch_once_witness :
    ∃ t, turbo_delete_files false
        (fun p i => if p = 0 ∧ i = 0 then some Err.apiError else none)
        (List.replicate 150 ['a']) = .ok t ∧
      t.batches = chunks (List.replicate 150 ['a']) ∧
      (∀ i, t.callIdx.count i ≤ 2) ∧
      (∀ i, i < t.batches.length →
        t.callIdx.count i =
          if (fun p i => if p = 0 ∧ i = 0 then some Err.apiError else none) 0 i =
              some Err.apiError then 2 else 1) ∧
      (∀ i, t.batches.length ≤ i → t.callIdx.count i = 0) ∧
      (∀ i, i ∈ t.abandoned ↔
        (i < t.batches.length ∧
          (fun p i => if p = 0 ∧ i = 0 then some Err.apiError else none) 0 i =
            some Err.apiError ∧
          (fun p i => if p = 0 ∧ i = 0 then some Err.apiError else none) 1 i =
            some Err.apiError)) :=
  turbo_delete_retries_each_failed_batch_once (List.replicate 150 ['a'])
    (fun p i => if p = 0 ∧ i = 0 then some Err.apiError else none)
    (fun p i => by by_cases h : p = 0 ∧ i = 0 <;> simp [h])

/-- C8: on 250 paths `turbo_delete_files` forms exactly 3 batches of sizes
100, 100 and 50 whose concatenation is the input; and when exactly one
batch fails with a remote `ApiError` in the concurrent pass while its
serial retry (and everything else) succeeds, every batch index ends up
successful, so a successful deletion call covers every one of the 250
paths. -/
theorem turbo_delete_250_paths_partition :
    ∀ (file_paths : List (List Char)) (j : Nat) (oracle : Nat → Nat → Option Err),
      file_paths.length = 250 → j < 3 →
      (∀ i, oracle 0 i = if i = j then some Err.apiError else none) →
      oracle 1 j = none →
      (∀ p i, oracle p i = none ∨ oracle p i = some Err.apiError) →
      ∃ t, turbo_delete_files false oracle file_paths = .ok t ∧
        t.batches.map List.length = [100, 100, 50] ∧
        t.batches.flatten = file_paths ∧
        (∀ i, i < 3 → i ∈ t.succeeded) ∧
        (∀ pth ∈ file_paths, ∃ i b, i ∈ t.succeeded ∧ t.batches.get? i = some b ∧ pth ∈ b) := by
  intro l j oracle hlen hj h0 h1 benign
  have hne : l ≠ [] := by intro he; rw [he] at hlen; simp at hlen
  have hd1 : (l.drop 100).length = 150 := by rw [List.length_drop, hlen]
  have hd2 : ((l.drop 100).drop 100).length = 50 := by rw [List.length_drop, hd1]
  have hd3 : (((l.drop 100).drop 100).drop 100).length = 0 := by rw [List.length_drop, hd2]
  have hne1 : l.drop 100 ≠ [] := by intro he; rw [he] at hd1; simp at hd1
  have hne2 : (l.drop 100).drop 100 ≠ [] := by intro he; rw [he] at hd2; simp at hd2
  have h3nil : ((l.drop 100).drop 100).drop 100 = [] := List.eq_nil_of_length_eq_zero hd3
  have hchunks : chunks l =
      [l.take 100, (l.drop 100).take 100, ((l.drop 100).drop 100).take 100] := by
    rw [chunks_cons_eq l hne, chunks_cons_eq _ hne1, chunks_cons_eq _ hne2, h3nil]
    rfl
  have hmaplen : (chunks l).map List.length = [100, 100, 50] := by
    rw [hchunks]
    simp only [List.map_cons, List.map_nil, List.length_take, hlen, hd1, hd2]
    norm_num
  have hn3 : (chunks l).length = 3 := by rw [hchunks]; rfl
  have hsucc : ∀ i, i < 3 →
      i ∈ (List.range (chunks l).length).filter
            (fun i => decide (oracle 0 i = none)) ++
          ((List.range (chunks l).length).filter
            (fun i => !(decide (oracle 0 i = none)))).filter
            (fun i => decide (oracle 1 i = none)) := by
    intro i hi3
    rw [hn3]
    by_cases hij : i = j
    · subst hij
      have hb1 : oracle 0 i = some Err.apiError := by rw [h0 i]; simp
      refine List.mem_append.mpr (Or.inr ?_)
      refine List.mem_filter.mpr ⟨List.mem_filter.mpr ⟨List.mem_range.mpr hi3, ?_⟩, ?_⟩
      · simp [hb1]
      · simp [h1]
    · have hb1 : oracle 0 i = none := by rw [h0 i]; simp [hij]
      refine List.mem_append.mpr (Or.inl ?_)
      refine List.mem_filter.mpr ⟨List.mem_range.mpr hi3, ?_⟩
      simp [hb1]
  refine ⟨_, turbo_benign_eq l oracle benign, hmaplen, chunks_flatten l, hsucc, ?_⟩
  intro pth hp
  have hp2 : pth ∈ (chunks l).flatten := by rw [chunks_flatten]; exact hp
  obtain ⟨b, hbmem, hpb⟩ := List.mem_flatten.mp hp2
  obtain ⟨i, hgi⟩ := List.get?_of_mem hbmem
  rcases List.get?_eq_some.mp hgi with ⟨hlt, _⟩
  have hi3 : i < 3 := by rw [hn3] at hlt; exact hlt
  exact ⟨i, b, hsucc i hi3, hgi, hpb⟩

/-- Witness for C8: 250 copies of the path `a`, batch 1 failing its
concurrent attempt and succeeding on the serial retry. -/
theorem turbo_delete_250_paths_partition_witness :
    ∃ t, turbo_delete_files false
        (fun p i => if p = 0 ∧ i = 1 then some Err.apiError else none)
        (List.replicate 250 ['a']) = .ok t ∧
      t.batches.map List.length = [100, 100, 50] ∧
      t.batches.flatten = List.replicate 250 ['a'] ∧
      (∀ i, i < 3 → i ∈ t.succeeded) ∧
      (∀ pth ∈ List.replicate 250 ['a'],
        ∃ i b, i ∈ t.succeeded ∧ t.batches.get? i = some b ∧ pth ∈ b) :=
  turbo_delete_250_paths_partition (List.replicate 250 ['a']) 1
    (fun p i => if p = 0 ∧ i = 1 then some Err.apiError else none)
    (by simp) (by omega)
    (fun i => by by_cases h : i = 1 <;> simp [h])
    (by simp)
    (fun p i => by by_cases h : p = 0 ∧ i = 1 <;> simp [h])

/-- A successful page fetch with more pages: process the entries, move to
the returned cursor, reset the retry counter. -/
theorem scanLoop_ok_step {fetch : Option Nat → Nat → Except Err Page}
    {cursor : Option Nat} {retry : Nat} {p : Page}
    (h : fetch cursor retry = .ok p) (hm : p.hasMore = true)
    (fuel : Nat) (targets : List (List Char)) :
    scanLoop fetch (fuel + 1) cursor retry targets =
      scanLoop fetch fuel (some p.cursor) 0 (processEntries targets p.entries) := by
  simp [scanLoop, h, hm]

/-- A successful page fetch with no more pages: return the accumulated
targets with no failure marker. -/
theorem scanLoop_ok_done {fetch : Option Nat → Nat → Except Err Page}
    {cursor : Option Nat} {retry : Nat} {p : Page}
    (h : fetch cursor retry = .ok p) (hm : p.hasMore = false)
    (fuel : Nat) (targets : List (List Char)) :
    scanLoop fetch (fuel + 1) cursor retry targets =
      some (.ok ⟨processEntries targets p.entries, []⟩) := by
  simp [scanLoop, h, hm]

/-- A caught error below the retry ceiling: retry the same cursor. -/
theorem scanLoop_caught_retry {fetch : Option Nat → Nat → Except Err Page}
    {cursor : Option Nat} {retry : Nat} {e : Err}
    (h : fetch cursor retry = .error e) (hc : isOuterCaught e = true) (hr : retry < 3)
    (fuel : Nat) (targets : List (List Char)) :
    scanLoop fetch (fuel + 1) cursor retry targets =
      scanLoop fetch fuel cursor (retry + 1) targets := by
  simp [scanLoop, h, hc, hr]

/-- Any error at the retry ceiling ends the scan in the
`except Exception` handler. -/
theorem scanLoop_exhaust {fetch : Option Nat → Nat → Except Err Page}
    {cursor : Option Nat} {e : Err}
    (h : fetch cursor 3 = .error e) (fuel : Nat) (targets : List (List Char)) :
    scanLoop fetch (fuel + 1) cursor 3 targets =
      some (scanOuterHandler e cursor targets) := by
  cases hc : isOuterCaught e <;> simp [scanLoop, h, hc]

/-- C9: when the fetch of the current page fails four times in a row (the
initial attempt plus the scanner's outer retry ceiling of 3), scanning
halts: with at least one accumulated target the scan returns the partial
target list together with one failure marker for the unprocessed
remainder (the current cursor, or the root when no cursor exists yet);
with no accumulated target the last error propagates as fatal. -/
theorem scan_halts_partial_on_exhaustion :
    ∀ (fetch : Option Nat → Nat → Except Err Page) (cursor : Option Nat)
      (targets : List (List Char)) (n : Nat) (e0 e1 e2 e3 : Err),
      fetch cursor 0 = .error e0 → isOuterCaught e0 = true →
      fetch cursor 1 = .error e1 → isOuterCaught e1 = true →
      fetch cursor 2 = .error e2 → isOuterCaught e2 = true →
      fetch cursor 3 = .error e3 →
      scanLoop fetch (n + 4) cursor 0 targets =
        some (if targets.isEmpty then .error e3
          else .ok ⟨targets,
            [match cursor with | none => Marker.root | some c => Marker.cursor c]⟩) := by
  intro fetch cursor targets n e0 e1 e2 e3 h0 c0 h1 c1 h2 c2 h3
  have f1 : n + 4 = (n + 3) + 1 := rfl
  have f2 : n + 3 = (n + 2) + 1 := rfl
  have f3 : n + 2 = (n + 1) + 1 := rfl
  have f4 : n + 1 = n + 1 := rfl
  rw [f1, scanLoop_caught_retry h0 c0 (by omega) (n + 3) targets,
    f2, scanLoop_caught_retry h1 c1 (by omega) (n + 2) targets,
    f3, scanLoop_caught_retry h2 c2 (by omega) (n + 1) targets]
  show scanLoop fetch (n + 1) cursor 3 targets = _
  rw [show n + 1 = n + 1 from rfl, scanLoop_exhaust h3 n targets]
  rfl

/-- Witness for C9 through `scan_target_folder`: the first page returns one
matching file and `has_more`; every wrapped fetch of the continuation page
raises a (non-transient) `ApiError`, which `robust_api_call` propagates at
once and the outer layer retries three times before giving up.  With the
target found, the scan returns the partial result and a cursor marker;
with an empty first page it propagates the error. -/
theorem scan_halts_partial_on_exhaustion_witness :
    scan_target_folder invBestEffort 6 =
      some (.ok ⟨["/$ jlr data migration/david/memostyle.pdf".toList],
        [Marker.cursor 7]⟩) ∧
    scan_target_folder invFatal 6 = some (.error Err.apiError) := by
  constructor
  · have h := scan_halts_partial_on_exhaustion
      (fun cursor retry => (robust_api_call (invBestEffort cursor retry)).1)
      (some 7) ["/$ jlr data migration/david/memostyle.pdf".toList] 1
      Err.apiError Err.apiError Err.apiError Err.apiError
      (by decide) (by decide) (by decide) (by decide) (by decide) (by decide) (by decide)
    show scanLoop _ (5 + 1) none 0 [] = _
    rw [scanLoop_ok_step rfl rfl 5 []]
    exact h
  · have h := scan_halts_partial_on_exhaustion
      (fun cursor retry => (robust_api_call (invFatal cursor retry)).1)
      (some 7) [] 1
      Err.apiError Err.apiError Err.apiError Err.apiError
      (by decide) (by decide) (by decide) (by decide) (by decide) (by decide) (by decide)
    show scanLoop _ (5 + 1) none 0 [] = _
    rw [scanLoop_ok_step rfl rfl 5 []]
    exact h

/-- C6 (counterexample): under dry-run the folder-reclamation phase never
runs at all — line 291 guards it with `not DRY_RUN and input(...)` — so,
contrary to the claim, `reclaim` does not evaluate its candidates and does
not log the intended folder deletions: `main` produces no reclaim trace
even though running `clean_empty_folders` on the same TargetSet in dry-run
mode would have logged one intended deletion. -/
theorem main_dry_run_skips_reclaim :
    mainReclaim (main_model true
      ["/$ jlr data migration/david/sub/memostyle.pdf".toList] true true
      (fun _ _ => none)
      (fun f => if f = "/$ jlr data migration/david/sub".toList
        then some [Entry.file "memostyle.pdf".toList
          "/$ jlr data migration/david/sub/memostyle.pdf".toList]
        else some [])) = none ∧
    (clean_empty_folders
      (fun f => if f = "/$ jlr data migration/david/sub".toList
        then some [Entry.file "memostyle.pdf".toList
          "/$ jlr data migration/david/sub/memostyle.pdf".toList]
        else some [])
      true
      ["/$ jlr data migration/david/sub/memostyle.pdf".toList]).logged =
      ["/$ jlr data migration/david/sub".toList] := by
  decide

/-- C6 (amended): under dry-run, for every input, no mutating remote call
is issued: no `files_delete_batch` call (`callIdx = []`) and no folder
delete (the reclamation phase is never entered, its component is `none`);
`deleteAll` still processes and logs every batch (`logs` equals the number
of batches).  But the folder-reclamation phase is skipped entirely under
dry-run, so no intended folder deletions are logged either. -/
theorem main_dry_run_no_mutation :
    ∀ (target_files : List (List Char)) (confirmDelete confirmClean : Bool)
      (oracle : Nat → Nat → Option Err) (env : List Char → Option (List Entry)),
      main_model true target_files confirmDelete confirmClean oracle env =
        if target_files.isEmpty then none
        else some (.ok ⟨chunks target_files, [], (chunks target_files).length, [],
          List.range (chunks target_files).length⟩, none) := by
  intro tf cd cc oracle env
  by_cases he : tf.isEmpty
  · simp [main_model, he]
  · simp [main_model, he, turbo_dry_eq oracle tf]

/-!  Sanity evaluations of the embedded definitions on concrete inputs. -/

/-- Concrete evaluations of the matcher, mirroring the spec's scan
scenario: the match is case-insensitive, accepts separator runs and
infixes before `.pdf`, and rejects unrelated names. -/
theorem is_target_file_evaluations :
    is_target_file "memostyle.pdf".toList = true ∧
    is_target_file "MemoStyle.PDF".toList = true ∧
    is_target_file "Memo - _Style v2.pdf".toList = true ∧
    is_target_file "memo style.pdf".toList = true ∧
    is_target_file "report.pdf".toList = false ∧
    is_target_file "memostyle.pdf.bak".toList = false ∧
    is_target_file "memo style\nx.pdf".toList = false ∧
    spec_is_target "memo style\nx.pdf".toList = true := by
  decide

/-- Concrete evaluations of the dirname model. -/
theorem dirname_evaluations :
    dirname "/a/b/c".toList = "/a/b".toList ∧
    dirname "/a".toList = "/".toList ∧
    dirname "abc".toList = "".toList ∧
    dirname "/a/b/".toList = "/a/b".toList := by
  decide

/-- Concrete evaluations of the retry wrapper: all-transient failure walks
the full compounding schedule; a non-transient failure returns at once; a
transient failure resolved on the third invocation sleeps twice. -/
theorem robust_api_call_evaluations :
    robust_api_call (fun _ => (Except.error Err.readTimeout : Except Err Unit)) =
      (.error Err.readTimeout, [90, 135, 405/2, 1215/4, 3645/8]) ∧
    robust_api_call (fun _ => (Except.error Err.authError : Except Err Unit)) =
      (.error Err.authError, []) ∧
    robust_api_call (fun i => if i < 2 then (Except.error Err.readTimeout : Except Err Nat)
      else .ok 7) = (.ok 7, [90, 135]) := by
  refine ⟨?_, ?_, ?_⟩
  · simp only [robust_api_call, racGo, MAX_RETRIES, INITIAL_TIMEOUT, BACKOFF_FACTOR, isTransient]
    norm_num
  · simp only [robust_api_call, racGo, MAX_RETRIES, INITIAL_TIMEOUT, BACKOFF_FACTOR, isTransient]
    norm_num
    decide
  · simp only [robust_api_call, racGo, MAX_RETRIES, INITIAL_TIMEOUT, BACKOFF_FACTOR, isTransient]
    norm_num

/-- Concrete evaluations of the batch deleter: 250 paths in live mode with
batch 1 failing once (it is retried and the retry logged), and a dry run
that issues no call at all. -/
theorem turbo_delete_files_evaluations :
    turbo_delete_files false (fun p i => if p = 0 && i = 1 then some Err.apiError else none)
      (List.replicate 250 ['a']) =
    .ok ⟨chunks (List.replicate 250 ['a']), [0, 1, 2, 1], 3, [], [0, 2, 1]⟩ ∧
    turbo_delete_files true (fun _ _ => some Err.otherError) (List.replicate 150 ['a']) =
    .ok ⟨chunks (List.replicate 150 ['a']), [], 2, [], [0, 1]⟩ := by
  constructor
  · decide
  · decide

/-- Concrete evaluation of the candidate derivation: one target file under
the root yields the ancestor chain strictly below the root. -/
theorem folders_to_check_evaluation :
    folders_to_check ["/$ jlr data migration/david/archive/memostyle.pdf".toList] =
      ["/$ jlr data migration/david/archive".toList] := by
  decide

end SDAMemoRemove
